import Mathlib

/-!
Verification development for the journald-format reader library.

The Rust source is shallowly embedded: files are lists of bytes
(`List Nat`, little-endian integers decoded explicitly), fallible
operations return `Except ErrKind`, and the async iterator loops are
embedded as fuel-indexed or structurally recursive functions.

`Header.is_compact`, `Header.sizeof_entry_array_item` and
`Header.sizeof_entry_object_item` are absent from the supplied sources
(only their callers are); those three are modelled from the spec and
marked as such in their doc comments.
-/

deriving instance DecidableEq for Except

set_option maxRecDepth 4000

namespace JournaldFormat

/-- Error kinds of `std::io::ErrorKind` used by the reader. -/
inductive ErrKind where
  | invalidData
  | notFound
  | notConnected
  | unexpectedEof
  | ioOther
deriving DecidableEq, Repr

/-! ## Byte-level primitives -/

/-- Little-endian decode of `n` bytes of `b` starting at `off`
(out-of-range bytes read as 0; reads are guarded by explicit length
checks at each call site, mirroring `read_exact`). -/
def leAt (b : List Nat) (off : Nat) : Nat → Nat
  | 0 => 0
  | n + 1 => (b[off]?).getD 0 + 256 * leAt b (off + 1) n

/-- Little-endian encode of `v` into `k` bytes (used to build test files). -/
def leBytes (k v : Nat) : List Nat := (List.range k).map (fun i => v / 256 ^ i % 256)

/-- Wrapping subtraction on u64, for the unchecked `u64` subtractions in
the Rust source (`payload_size - ENTRY_ARRAY_HEADER_SIZE` and
`payload_size - ENTRY_OBJECT_HEADER_SIZE`). -/
def wsub64 (a b : Nat) : Nat := (a + (2 ^ 64 - b)) % 2 ^ 64

/-! ## File header (`src/header.rs`) -/

/-- `Header` from `src/header.rs`, restricted to the fields the embedded
reader operations consult. Flag sets are kept as their u32 bit words. -/
structure Header where
  compatible_flags : Nat
  incompatible_flags : Nat
  entry_array_offset : Nat
deriving DecidableEq, Repr

/-- Known `CompatibleFlag` bits: Sealed | TailEntryBootId | SealedContinuous. -/
def compatibleKnownBits : Nat := 7

/-- Known `IncompatibleFlag` bits:
CompressedXz | CompressedLz4 | KeyedHash | CompressedZstd | Compact. -/
def incompatibleKnownBits : Nat := 31

/-- `CompatibleFlag::deku_reader`: `FlagSet::new_truncated(value)` keeps
only the known bits and never fails. -/
def CompatibleFlag.deku_reader (value : Nat) : Except ErrKind Nat :=
  .ok (value &&& compatibleKnownBits)

/-- `IncompatibleFlag::deku_reader`: `FlagSet::new(value)` fails (an
assertion error surfaced as invalid data) when any unknown bit is set. -/
def IncompatibleFlag.deku_reader (value : Nat) : Except ErrKind Nat :=
  if value &&& (0xFFFFFFFF ^^^ incompatibleKnownBits) = 0 then .ok value
  else .error .invalidData

/-- The `Compact` incompatible flag bit. -/
def compactFlagBit : Nat := 16

/-- Modelled from the spec: `is_compact` is absent from the supplied
sources (only called); §4.2 defines it as "the Compact flag is set". -/
def Header.is_compact (h : Header) : Bool := h.incompatible_flags &&& compactFlagBit != 0

/-- Modelled from the spec: `sizeof_entry_array_item` is absent from the
supplied sources; §4.2 defines it as 4 in compact mode, else 8. -/
def Header.sizeof_entry_array_item (h : Header) : Nat := if h.is_compact then 4 else 8

/-- Modelled from the spec: `sizeof_entry_object_item` is absent from the
supplied sources; §4.2 defines it as 4 in compact mode, else 16. -/
def Header.sizeof_entry_object_item (h : Header) : Nat := if h.is_compact then 4 else 16

/-- `jiff::Timestamp::MAX` in whole microseconds
(9999-12-31T23:59:59.999999Z); `Timestamp::from_microsecond` fails above
this. Timestamps are modelled at microsecond resolution throughout. -/
def jiffMaxMicros : Int := 253402300799999999

/-! ## Objects (`src/objects/header.rs`, `src/objects/entry_array.rs`,
`src/objects/entry.rs`) -/

/-- `ObjectType` (`src/objects/header.rs`): ids 1..7, unknown ids kept. -/
inductive ObjectType where
  | data
  | field
  | entry
  | dataHashTable
  | fieldHashTable
  | entryArray
  | tag
  | unknown (id : Nat)
deriving DecidableEq, Repr

/-- Decode an `ObjectType` from its id byte (`#[deku(id_pat = "_")]`
catch-all for unknown ids). -/
def ObjectType.fromByte (v : Nat) : ObjectType :=
  if v = 1 then .data
  else if v = 2 then .field
  else if v = 3 then .entry
  else if v = 4 then .dataHashTable
  else if v = 5 then .fieldHashTable
  else if v = 6 then .entryArray
  else if v = 7 then .tag
  else .unknown v

/-- `DataCompression` (`src/objects/header.rs`). -/
inductive DataCompression where
  | none
  | xz
  | lz4
  | zstd
deriving DecidableEq, Repr

/-- Decode `DataCompression`; the deku enum has no catch-all, so any other
byte is a parse error. -/
def DataCompression.fromByte (v : Nat) : Option DataCompression :=
  if v = 0 then some .none
  else if v = 1 then some .xz
  else if v = 2 then some .lz4
  else if v = 4 then some .zstd
  else Option.none

def OBJECT_HEADER_SIZE : Nat := 16
def ENTRY_ARRAY_HEADER_SIZE : Nat := 8
def ENTRY_OBJECT_HEADER_SIZE : Nat := 48

/-- `ObjectHeader` (`src/objects/header.rs`): 16 bytes
`{type: u8, compression: u8, pad[6], size: u64}`. -/
structure ObjectHeader where
  type : ObjectType
  compression : DataCompression
  size : Nat
deriving DecidableEq, Repr

/-- `SimpleRead::read_at` for `ObjectHeader`: read 16 bytes at `offset`
(`unexpected-eof` if short), then deku-parse them. -/
def ObjectHeader.read_at (b : List Nat) (offset : Nat) : Except ErrKind ObjectHeader :=
  if offset + OBJECT_HEADER_SIZE ≤ b.length then
    match DataCompression.fromByte ((b[offset + 1]?).getD 0) with
    | some compression =>
        .ok ⟨ObjectType.fromByte ((b[offset]?).getD 0), compression, leAt b (offset + 8) 8⟩
    | Option.none => .error .invalidData
  else .error .unexpectedEof

/-- `ObjectHeader::payload_size`: `size.saturating_sub(16)`. -/
def ObjectHeader.payload_size (o : ObjectHeader) : Nat := o.size - OBJECT_HEADER_SIZE

/-- `ObjectHeader::check_type`: invalid data when the type differs. -/
def ObjectHeader.check_type (o : ObjectHeader) (check : ObjectType) : Except ErrKind ObjectHeader :=
  if o.type = check then .ok o else .error .invalidData

/-- `EntryArrayObjectHeader::read_at`: a u64 `next_entry_array_offset`,
zero decoded as absent. -/
def EntryArrayObjectHeader.read_at (b : List Nat) (offset : Nat) :
    Except ErrKind (Option Nat) :=
  if offset + ENTRY_ARRAY_HEADER_SIZE ≤ b.length then
    .ok (if leAt b offset 8 = 0 then Option.none else some (leAt b offset 8))
  else .error .unexpectedEof

/-- `EntryArrayCompactItem::read_at`: one u32. -/
def EntryArrayCompactItem.read_at (b : List Nat) (offset : Nat) : Except ErrKind Nat :=
  if offset + 4 ≤ b.length then .ok (leAt b offset 4) else .error .unexpectedEof

/-- `EntryArrayRegularItem::read_at`: one u64 (no hash field). -/
def EntryArrayRegularItem.read_at (b : List Nat) (offset : Nat) : Except ErrKind Nat :=
  if offset + 8 ≤ b.length then .ok (leAt b offset 8) else .error .unexpectedEof

/-- `EntryObjectCompactItem::read_at`: one u32 object offset. -/
def EntryObjectCompactItem.read_at (b : List Nat) (offset : Nat) : Except ErrKind Nat :=
  if offset + 4 ≤ b.length then .ok (leAt b offset 4) else .error .unexpectedEof

/-- `EntryObjectRegularItem::read_at`: 16 bytes `{object_offset: u64,
hash: u64}`; the value of interest is the offset. -/
def EntryObjectRegularItem.read_at (b : List Nat) (offset : Nat) : Except ErrKind Nat :=
  if offset + 16 ≤ b.length then .ok (leAt b offset 8) else .error .unexpectedEof

/-- `EntryObjectHeader` (`src/objects/entry.rs`): seqnum (nonzero),
realtime (µs timestamp), monotonic (nonzero), boot_id (nonzero u128),
xor_hash. -/
structure EntryObjectHeader where
  seqnum : Nat
  realtime : Nat
  monotonic : Nat
  boot_id : Nat
  xor_hash : Nat
deriving DecidableEq, Repr

/-- `EntryObjectHeader::read_at`: 48 bytes; deku parses the fields in
order, failing with invalid data on a zero `NonZero` field or an
out-of-range realtime. -/
def EntryObjectHeader.read_at (b : List Nat) (offset : Nat) :
    Except ErrKind EntryObjectHeader :=
  if offset + ENTRY_OBJECT_HEADER_SIZE ≤ b.length then
    let seqnum := leAt b offset 8
    let realtime := leAt b (offset + 8) 8
    let monotonic := leAt b (offset + 16) 8
    let boot_id := leAt b (offset + 24) 16
    let xor_hash := leAt b (offset + 40) 8
    if seqnum = 0 then .error .invalidData
    else if realtime < 2 ^ 63 ∧ (realtime : Int) ≤ jiffMaxMicros then
      if monotonic = 0 then .error .invalidData
      else if boot_id = 0 then .error .invalidData
      else .ok ⟨seqnum, realtime, monotonic, boot_id, xor_hash⟩
    else .error .invalidData
  else .error .unexpectedEof

/-- An `Entry` value: offset, parsed header, and the nonzero data-object
offsets collected from its item array. -/
structure Entry where
  offset : Nat
  header : EntryObjectHeader
  objects : List Nat
deriving DecidableEq, Repr

/-- One iteration body of the item loop in `Entry::read_at`: compact
items are a u32; regular items are a u64 (plus hash) whose offset must
fit in u32 (`u32::try_from` or invalid data). -/
def readEntryObjectItem (b : List Nat) (h : Header) (itemOff : Nat) : Except ErrKind Nat :=
  if h.is_compact then EntryObjectCompactItem.read_at b itemOff
  else
    match EntryObjectRegularItem.read_at b itemOff with
    | .error e => .error e
    | .ok v => if v < 2 ^ 32 then .ok v else .error .invalidData

/-- The `for n in 0..capacity` loop of `Entry::read_at`; `k` counts the
remaining iterations, a zero offset stops the collection. -/
def readEntryItems (b : List Nat) (h : Header) (array_offset size : Nat) :
    Nat → Nat → Except ErrKind (List Nat)
  | 0, _ => .ok []
  | k + 1, n =>
    match readEntryObjectItem b h (array_offset + n * size) with
    | .error e => .error e
    | .ok object_offset =>
      if object_offset = 0 then .ok []
      else
        match readEntryItems b h array_offset size k (n + 1) with
        | .error e => .error e
        | .ok rest => .ok (object_offset :: rest)

/-- `Entry::read_at` (`src/objects/entry.rs`): object header checked to
be `Entry`, entry header, then the item array of capacity
`(payload_size - 48) / sizeof_entry_object_item`. -/
def Entry.read_at (b : List Nat) (offset : Nat) (file_header : Header) :
    Except ErrKind Entry :=
  match (ObjectHeader.read_at b offset).bind (fun o => o.check_type .entry) with
  | .error e => .error e
  | .ok object =>
    match EntryObjectHeader.read_at b (offset + OBJECT_HEADER_SIZE) with
    | .error e => .error e
    | .ok header =>
      let array_offset := offset + OBJECT_HEADER_SIZE + ENTRY_OBJECT_HEADER_SIZE
      let array_size := wsub64 object.payload_size ENTRY_OBJECT_HEADER_SIZE
      let size := file_header.sizeof_entry_object_item
      let capacity := array_size / size
      match readEntryItems b file_header array_offset size capacity 0 with
      | .error e => .error e
      | .ok objects => .ok ⟨offset, header, objects⟩

/-! ## Filename scheme (`src/reader/file_read.rs`) -/

/-- `JournalSelection`: machine id and scope. -/
structure JournalSelection where
  machine_id : Nat
  scope : String
deriving DecidableEq, Repr

/-- `FilenameInfo` (`src/reader/file_read.rs`). `head_realtime` is a
`jiff::Timestamp` modelled as whole microseconds since the epoch. -/
inductive FilenameInfo where
  | archived (machine_id : Nat) (scope : String) (file_seqnum : Nat)
      (head_seqnum : Nat) (head_realtime : Int)
  | latest (machine_id : Nat) (scope : String)
deriving DecidableEq, Repr

/-- `FilenameInfo::is_archived`. -/
def FilenameInfo.is_archived : FilenameInfo → Bool
  | .archived .. => true
  | _ => false

/-- One lowercase hex digit, as produced by `hex::encode`. -/
def hexDigitChar (d : Nat) : Char :=
  if d < 10 then Char.ofNat (48 + d) else Char.ofNat (87 + d)

/-- Big-endian byte decomposition of `v` into `k` bytes
(`to_be_bytes`). -/
def natToBEBytes : Nat → Nat → List Nat
  | 0, _ => []
  | k + 1, v => v / 256 ^ k :: natToBEBytes k (v % 256 ^ k)

/-- `hex::encode` on a byte list: two lowercase hex digits per byte. -/
def hexEncodeBytes : List Nat → List Char
  | [] => []
  | byte :: rest => hexDigitChar (byte / 16) :: hexDigitChar (byte % 16) :: hexEncodeBytes rest

/-- `hex::encode(v.to_be_bytes())` for a `k`-byte integer. -/
def hexEncode (k v : Nat) : List Char := hexEncodeBytes (natToBEBytes k v)

/-- Value of one hex digit, case-insensitive (`hex::decode`). -/
def hexDigitVal (c : Char) : Option Nat :=
  if 48 ≤ c.toNat ∧ c.toNat ≤ 57 then some (c.toNat - 48)
  else if 97 ≤ c.toNat ∧ c.toNat ≤ 102 then some (c.toNat - 87)
  else if 65 ≤ c.toNat ∧ c.toNat ≤ 70 then some (c.toNat - 55)
  else Option.none

/-- `hex::decode`: pairs of hex digits to bytes; fails on odd length or a
non-hex character. -/
def hexDecode : List Char → Option (List Nat)
  | [] => some []
  | [_] => Option.none
  | c1 :: c2 :: rest => do
    let d1 ← hexDigitVal c1
    let d2 ← hexDigitVal c2
    let ds ← hexDecode rest
    pure ((16 * d1 + d2) :: ds)

/-- `u128::from_be_bytes` / `u64::from_be_bytes` after `try_into`. -/
def bytesBEToNat (l : List Nat) : Nat := l.foldl (fun a byte => a * 256 + byte) 0

/-- `u64::try_from(timestamp.as_microsecond()).unwrap_or_default()`:
negative timestamps collapse to 0. -/
def timestampToU64 (ts : Int) : Nat := if ts < 0 then 0 else ts.toNat

/-- `AsyncFileRead::make_filename`. Paths are modelled as `List Char`
with `'/'` separators. -/
def make_filename : FilenameInfo → List Char
  | .latest machine_id scope =>
      hexEncode 16 machine_id ++ '/' :: (scope.data ++ ".journal".data)
  | .archived machine_id scope file_seqnum head_seqnum head_realtime =>
      hexEncode 16 machine_id ++ '/' :: (scope.data ++ '@' ::
        (hexEncode 16 file_seqnum ++ '-' :: (hexEncode 8 head_seqnum ++ '-' ::
          (hexEncode 8 (timestampToU64 head_realtime) ++ ".journal".data))))

/-- `AsyncFileRead::make_prefix`. -/
def makePrefix (s : JournalSelection) : List Char :=
  hexEncode 16 s.machine_id ++ '/' :: (s.scope.data ++ ['@'])

/-- `str::split_once`: split at the first occurrence of `sep`. -/
def splitOnceList (sep : Char) : List Char → Option (List Char × List Char)
  | [] => Option.none
  | c :: rest =>
    if c = sep then some ([], rest)
    else (splitOnceList sep rest).map (fun p => (c :: p.1, p.2))

/-- `Path::components()` modelled as splitting on `'/'` (empty and `"."`
components are dropped afterwards, as `Components` does). -/
def splitPath : List Char → List (List Char)
  | [] => [[]]
  | c :: rest =>
    if c = '/' then [] :: splitPath rest
    else
      match splitPath rest with
      | [] => [[c]]
      | h :: t => (c :: h) :: t

/-- Components kept by `Path::components()`: nonempty and not `"."`. -/
def keepComponent (c : List Char) : Bool := !c.isEmpty && c ≠ ['.']

/-- The archived arm of `parse_filename`, after the `'@'` split: split
off the two `'-'`-separated hex fields and the extension, hex-decode,
reject zero `NonZero` fields and out-of-range timestamps. -/
def parseArchivedRest (machine_id : Nat) (scope rest : List Char) : Option FilenameInfo :=
  match splitOnceList '-' rest with
  | Option.none => Option.none
  | some (file_seqnum_s, rest1) =>
    match splitOnceList '-' rest1 with
    | Option.none => Option.none
    | some (head_seqnum_s, rest2) =>
      let head_realtime_s := match splitOnceList '.' rest2 with
        | some p => p.1
        | Option.none => rest2
      match hexDecode file_seqnum_s, hexDecode head_seqnum_s, hexDecode head_realtime_s with
      | some fsb, some hsb, some hrb =>
        if fsb.length = 16 ∧ hsb.length = 8 ∧ hrb.length = 8 then
          let file_seqnum := bytesBEToNat fsb
          let head_seqnum := bytesBEToNat hsb
          let head_realtime := bytesBEToNat hrb
          if file_seqnum = 0 then Option.none
          else if head_seqnum = 0 then Option.none
          else if head_realtime < 2 ^ 63 ∧ (head_realtime : Int) ≤ jiffMaxMicros then
            some (.archived machine_id (String.mk scope) file_seqnum head_seqnum
              (head_realtime : Int))
          else Option.none
        else Option.none
      | _, _, _ => Option.none

/-- `AsyncFileRead::parse_filename` (`src/reader/file_read.rs`): last
path component is the filename, the one above it the hex machine id;
no `'@'` means a latest file (with the `fss` sidecar rejected),
otherwise the archived fields follow. -/
def parse_filename (path : List Char) : Option FilenameInfo :=
  match ((splitPath path).filter keepComponent).reverse with
  | filename :: midChars :: _ =>
    (match hexDecode midChars with
     | Option.none => Option.none
     | some midBytes =>
       if midBytes.length = 16 then
         let machine_id := bytesBEToNat midBytes
         match splitOnceList '@' filename with
         | Option.none =>
           let scope := match splitOnceList '.' filename with
             | some p => p.1
             | Option.none => filename
           if scope = "fss".data then Option.none
           else some (.latest machine_id (String.mk scope))
         | some (scope, rest) => parseArchivedRest machine_id scope rest
       else Option.none)
  | _ => Option.none

/-! ## Filename ordering (`impl PartialOrd/Ord for FilenameInfo`) -/

/-- `Ord::cmp` on integers. -/
def cmpNat (a b : Nat) : Ordering :=
  if a < b then .lt else if a = b then .eq else .gt

/-- `Ord::cmp` on `i64` (timestamps, modelled as microseconds). -/
def cmpInt (a b : Int) : Ordering :=
  if a < b then .lt else if a = b then .eq else .gt

/-- `Ord::cmp` on bytes/chars (UTF-8 byte order equals scalar order). -/
def cmpChar (a b : Char) : Ordering := cmpNat a.toNat b.toNat

/-- `Ord::cmp` on `String`: lexicographic. -/
def cmpCharList : List Char → List Char → Ordering
  | [], [] => .eq
  | [], _ :: _ => .lt
  | _ :: _, [] => .gt
  | a :: as_, b :: bs =>
    match cmpChar a b with
    | .eq => cmpCharList as_ bs
    | o => o

def cmpString (a b : String) : Ordering := cmpCharList a.data b.data

/-- `FilenameInfo::partial_cmp`, kept verbatim including the
`Option::or_else` chaining of the source (which never fires, because
`partial_cmp` on each total field always returns `Some`). -/
def FilenameInfo.partial_cmp : FilenameInfo → FilenameInfo → Option Ordering
  | .archived amid ascope afs ahs ahr, .archived bmid bscope bfs bhs bhr =>
    ((((some (cmpInt ahr bhr)).orElse
      (fun _ => some (cmpNat ahs bhs))).orElse
      (fun _ => some (cmpNat afs bfs))).orElse
      (fun _ => some (cmpString ascope bscope))).orElse
      (fun _ => some (cmpNat amid bmid))
  | .latest amid ascope, .latest bmid bscope =>
    (some (cmpString ascope bscope)).orElse (fun _ => some (cmpNat amid bmid))
  | .archived .., .latest .. => some .lt
  | .latest .., .archived .. => some .gt

/-- `Ord::cmp for FilenameInfo`: unwraps `partial_cmp` (always `Some`). -/
def FilenameInfo.cmp (a b : FilenameInfo) : Ordering := (a.partial_cmp b).getD .eq

/-- Fold step for `btreeFirst`: keep the running minimum, preferring the
earlier element on ties (a `BTreeSet` does not replace an equal
element). -/
def btreeMin (acc : Option FilenameInfo) (x : FilenameInfo) : Option FilenameInfo :=
  match acc with
  | Option.none => some x
  | some m => if FilenameInfo.cmp x m = .lt then some x else some m

/-- `collect::<BTreeSet<_>>().first()`: the minimum under
`FilenameInfo::cmp`; among `cmp`-equal elements the first inserted is
kept. -/
def btreeFirst (l : List FilenameInfo) : Option FilenameInfo :=
  l.foldl btreeMin Option.none

/-! ## Position and the entry-array walker (`src/reader.rs`) -/

/-- `Position`: `Some n` means the next item to yield is the `n`-th of
the array at `entry_array_offset`; `None` means chase the chain. -/
structure Position where
  entry_array_offset : Nat
  index : Option Nat
deriving DecidableEq, Repr

/-- `load()`: position at the first entry array, index 0. -/
def loadPosition (h : Header) : Position := ⟨h.entry_array_offset, some 0⟩

/-- Item resolution in `entries()`: compact items are a u32; otherwise a
`EntryArrayRegularItem` u64 used directly. -/
def resolveEntryArrayItem (b : List Nat) (h : Header) (itemOff : Nat) : Except ErrKind Nat :=
  if h.is_compact then EntryArrayCompactItem.read_at b itemOff
  else EntryArrayRegularItem.read_at b itemOff

/-- The body of the `while let Some((entry_index, array_offset))` loop
of `entries()`: read the item at index `i`; a zero offset ends the
array; otherwise read the entry, then advance while `i + 1 < arraySize`.
`k` is structural-recursion fuel kept equal to `arraySize - i`, which
makes the `k = 0` fallback unreachable: whenever `i + 1 < arraySize`
holds, `k ≥ 2`. -/
def walkItemsGo (b : List Nat) (h : Header) (arrOff arraySize : Nat) :
    Nat → Nat → Except ErrKind (List Entry)
  | k, i =>
    match resolveEntryArrayItem b h
        (arrOff + OBJECT_HEADER_SIZE + ENTRY_ARRAY_HEADER_SIZE +
          i * h.sizeof_entry_array_item) with
    | .error e => .error e
    | .ok entry_offset =>
      if entry_offset = 0 then .ok []
      else
        match Entry.read_at b entry_offset h with
        | .error e => .error e
        | .ok e =>
          if i + 1 < arraySize then
            match k with
            | 0 => .ok [e]
            | k' + 1 =>
              match walkItemsGo b h arrOff arraySize k' (i + 1) with
              | .error err => .error err
              | .ok rest => .ok (e :: rest)
          else .ok [e]

/-- The item loop of `entries()` starting at index `i`. After the loop
the position index is always `None`. -/
def walkItems (b : List Nat) (h : Header) (arrOff arraySize : Nat) (i : Nat) :
    Except ErrKind (List Entry) :=
  walkItemsGo b h arrOff arraySize (arraySize - i) i

/-- `next_entry_array()`: check the object at the current array offset is
an `EntryArray`, read its sub-header; move to `(next, Some 0)` when a
chained array exists, else report `false` without mutation. -/
def next_entry_array (b : List Nat) (p : Position) : Except ErrKind (Bool × Position) :=
  match (ObjectHeader.read_at b p.entry_array_offset).bind
      (fun o => o.check_type .entryArray) with
  | .error e => .error e
  | .ok _ =>
    match EntryArrayObjectHeader.read_at b (p.entry_array_offset + OBJECT_HEADER_SIZE) with
    | .error e => .error e
    | .ok (some next) => .ok (true, ⟨next, some 0⟩)
    | .ok Option.none => .ok (false, p)

/-- One pass of the `loop { // entry arrays }` body in `entries()`: read
and type-check the array object, compute
`array_size = (payload_size - 8) / sizeof_entry_array_item`, run the item
loop (skipped when the index is `None`), then try `next_entry_array`.
Returns the yielded entries, whether another array follows, and the
resulting position. -/
def oneFilePass (b : List Nat) (h : Header) (p : Position) :
    Except ErrKind (List Entry × Bool × Position) :=
  match (ObjectHeader.read_at b p.entry_array_offset).bind
      (fun o => o.check_type .entryArray) with
  | .error e => .error e
  | .ok array_object =>
    let payload_size := wsub64 array_object.payload_size ENTRY_ARRAY_HEADER_SIZE
    let array_size := payload_size / h.sizeof_entry_array_item
    match (match p.index with
           | some i => walkItems b h p.entry_array_offset array_size i
           | Option.none => .ok []) with
    | .error e => .error e
    | .ok es =>
      match next_entry_array b ⟨p.entry_array_offset, Option.none⟩ with
      | .error e => .error e
      | .ok (more, p2) => .ok (es, more, p2)

/-- The in-file part of `entries()`: chase entry arrays, accumulating
yields. `fuel` bounds the embedding of the unbounded Rust loop; the
final `Bool` is `true` when the loop exited because no further array is
chained (a clean in-file end) and `false` on fuel exhaustion. -/
def walkFile (b : List Nat) (h : Header) : Nat → Position →
    Except ErrKind (List Entry × Position × Bool)
  | 0, p => .ok ([], p, false)
  | fuel + 1, p =>
    match oneFilePass b h p with
    | .error e => .error e
    | .ok (es, false, p2) => .ok (es, p2, true)
    | .ok (es, true, p2) =>
      match walkFile b h fuel p2 with
      | .error e => .error e
      | .ok (rest, p3, clean) => .ok (es ++ rest, p3, clean)

/-- `skip_to_end()`: call `next_entry_array` until it reports `false`,
then clear the index. `fuel` bounds the loop; `none` is returned when it
runs out before the chain ends. -/
def skipToEnd (b : List Nat) : Nat → Position → Except ErrKind (Option Position)
  | 0, _ => .ok Option.none
  | fuel + 1, p =>
    match next_entry_array b p with
    | .error e => .error e
    | .ok (false, p1) => .ok (some ⟨p1.entry_array_offset, Option.none⟩)
    | .ok (true, p2) => skipToEnd b fuel p2

/-- The decoded value of item `i` of the entry array at `arrOff` (the
value `resolveEntryArrayItem` yields when its read succeeds). -/
def arrayItemVal (b : List Nat) (h : Header) (arrOff i : Nat) : Nat :=
  let itemOff := arrOff + OBJECT_HEADER_SIZE + ENTRY_ARRAY_HEADER_SIZE +
    i * h.sizeof_entry_array_item
  if h.is_compact then leAt b itemOff 4 else leAt b itemOff 8

/-- Smallest index `j` in `[i, i + k)` whose item decodes to zero, or
`i + k` when none does. -/
def firstZeroAux (b : List Nat) (h : Header) (arrOff : Nat) : Nat → Nat → Nat
  | i, 0 => i
  | i, k + 1 => if arrayItemVal b h arrOff i = 0 then i else firstZeroAux b h arrOff (i + 1) k

/-- Index of the first zero item of the array at `arrOff`, capped at
`n`. -/
def firstZeroIndexUpTo (b : List Nat) (h : Header) (arrOff n : Nat) : Nat :=
  firstZeroAux b h arrOff 0 n

/-! ## Cross-file handoff (`entries()`, `src/reader.rs:254-280`) -/

/-- What the cross-file part of `entries()` decides to do when the
in-file walker reports no more entry arrays. -/
inductive HandoffAction where
  | openArchived (f : FilenameInfo)
  | openLatest
  | done
deriving DecidableEq, Repr

/-- The `filter_map` over `list_files(Some(prefix))`: keep archived
filenames with `head_seqnum > seqnum`; listing errors are silently
dropped. -/
def handoffCandidates (seqnum : Nat) (files : List (Except ErrKind FilenameInfo)) :
    List FilenameInfo :=
  files.filterMap fun r =>
    match r with
    | .ok (.archived mid scope fs hs hr) =>
      if seqnum < hs then some (.archived mid scope fs hs hr) else Option.none
    | _ => Option.none

/-- The cross-file decision of `entries()`: with a recorded
`current_seqnum`, open the `BTreeSet`-first candidate if any, else move
to the latest file only when the current file parses as archived;
without any yielded entry, stop. `current` is
`io.current().and_then(parse_filename)`. -/
def crossFileStep (last_seqnum : Option Nat) (files : List (Except ErrKind FilenameInfo))
    (current : Option FilenameInfo) : HandoffAction :=
  match last_seqnum with
  | some seqnum =>
    match btreeFirst (handoffCandidates seqnum files) with
    | some f => .openArchived f
    | Option.none =>
      if (current.map FilenameInfo.is_archived).getD false then .openLatest else .done
  | Option.none => .done

/-! ## Reader state: `select` and `entry_data` (`src/reader.rs`) -/

/-- `CurrentFile`: parsed header plus position. -/
structure CurrentFile where
  header : Header
  position : Position
deriving DecidableEq, Repr

/-- The reader state `select`/`entry_data` manipulate: the recorded
selection, the loaded file, and the path the io adapter has open. -/
structure JournalReaderState where
  select : Option JournalSelection
  current : Option CurrentFile
  ioCurrent : Option (List Char)
deriving DecidableEq, Repr

/-- The storage adapter as `select` sees it: whether opening a path
succeeds, and the (possibly failing) prefix listing stream. -/
structure SelectIo where
  openResult : List Char → Except ErrKind Unit
  listFilesPrefixed : List Char → List (Except ErrKind FilenameInfo)

/-- `JournalReader::select`: close and clear everything, try the latest
file, fall back to the first listed archived file on `not-found`; record
the selection only on success. -/
def JournalReader.select (io : SelectIo) (_st : JournalReaderState)
    (journal : JournalSelection) : Except ErrKind Unit × JournalReaderState :=
  let cleared : JournalReaderState := ⟨Option.none, Option.none, Option.none⟩
  let latest := make_filename (.latest journal.machine_id journal.scope)
  match io.openResult latest with
  | .ok _ =>
    (.ok (), { cleared with select := some journal, ioCurrent := some latest })
  | .error e =>
    if e ≠ .notFound then (.error e, cleared)
    else
      match (io.listFilesPrefixed (makePrefix journal)).head? with
      | Option.none => (.error .notFound, cleared)
      | some (.error e2) => (.error e2, cleared)
      | some (.ok f) =>
        match io.openResult (make_filename f) with
        | .ok _ =>
          (.ok (), { cleared with select := some journal, ioCurrent := some (make_filename f) })
        | .error e3 => (.error e3, cleared)

/-- What a call to `entry_data` does, as observable by the caller. The
`errorResult` case exists so that error-reporting behaviour is statable;
the source never produces it here. -/
inductive EntryDataOutcome where
  | panic
  | errorResult (e : ErrKind)
  | stream (header : Header)
deriving DecidableEq, Repr

/-- `JournalReader::entry_data`: `expect`s a loaded file — it panics when
none is loaded, otherwise streams the entry's data against the loaded
header. -/
def entry_data (st : JournalReaderState) : EntryDataOutcome :=
  match st.current with
  | Option.none => .panic
  | some cf => .stream cf.header

/-! ## Concrete file fixtures -/

/-- A minimal valid `Entry` object: 16-byte object header (type 3,
size 68), entry header (seqnum `seq`, realtime 1, monotonic 1, boot id
1), and a single zero compact item. -/
def entryBytes (seq : Nat) : List Nat :=
  [3, 0, 0, 0, 0, 0, 0, 0] ++ leBytes 8 68 ++
    leBytes 8 seq ++ leBytes 8 1 ++ leBytes 8 1 ++ leBytes 16 1 ++ leBytes 8 0 ++ leBytes 4 0

/-- A compact-mode header whose first entry array lives at offset 208. -/
def compactHeader : Header := ⟨0, 16, 208⟩

/-- A regular-mode (non-compact) header, first entry array at 208. -/
def regularHeader : Header := ⟨0, 0, 208⟩

/-- Compact-mode file: one entry array at 208 (declared size 32, so two
4-byte item slots), no chained array, items pointing at entries with
seqnums 5 and 7 located at 240 and 308. -/
def twoEntryFileBytes : List Nat :=
  List.replicate 208 0 ++
    ([6, 0, 0, 0, 0, 0, 0, 0] ++ leBytes 8 32 ++ leBytes 8 0 ++ leBytes 4 240 ++ leBytes 4 308) ++
    entryBytes 5 ++ entryBytes 7

/-- Compact-mode file whose single entry array at 208 names itself as its
chained successor (`next_entry_array_offset = 208`), with one item
pointing at a valid entry at 236. -/
def cyclicFileBytes : List Nat :=
  List.replicate 208 0 ++
    ([6, 0, 0, 0, 0, 0, 0, 0] ++ leBytes 8 28 ++ leBytes 8 208 ++ leBytes 4 236) ++
    entryBytes 5

/-- Bytes at offset 208 encoding the u64 value `2^32` followed by a zero
u64 (a regular item with an offset that does not fit in u32). -/
def bigOffsetItemBytes : List Nat :=
  List.replicate 208 0 ++ leBytes 8 (2 ^ 32) ++ leBytes 8 0

/-! ## Theorems -/

/-- C7: `incompatible_flags` parsing succeeds exactly when every set bit
is among the five known bits (mask `0b11111`), failing with invalid data
otherwise; `compatible_flags` parsing always succeeds and silently drops
unknown bits. -/
theorem flag_gating :
    ∀ v : Nat,
      (v &&& 0xFFFFFFE0 = 0 → IncompatibleFlag.deku_reader v = .ok v) ∧
      (v &&& 0xFFFFFFE0 ≠ 0 → IncompatibleFlag.deku_reader v = .error .invalidData) ∧
      CompatibleFlag.deku_reader v = .ok (v &&& compatibleKnownBits) := by
  intro v
  have hmask : (0xFFFFFFFF ^^^ incompatibleKnownBits : Nat) = 0xFFFFFFE0 := by decide
  refine ⟨?_, ?_, rfl⟩ <;> intro h <;>
    simp only [IncompatibleFlag.deku_reader, hmask] <;> simp [h]

/-- C7 witness: the reader accepts the word with all five known bits,
rejects bit 5, and truncates compatible word 9 to bit 0. -/
theorem flag_gating_witness :
    IncompatibleFlag.deku_reader 31 = .ok 31 ∧
    IncompatibleFlag.deku_reader 32 = .error .invalidData ∧
    CompatibleFlag.deku_reader 9 = .ok 1 :=
  ⟨(flag_gating 31).1 (by decide), (flag_gating 32).2.1 (by decide),
    (flag_gating 9).2.2.trans (by decide)⟩

/-- C3: the `Ord` implementation compares two distinct archived
filenames that share a `head_realtime` as equal — the
`Option::or_else` tie-breakers never run, so `head_seqnum` does not
decide as claimed. -/
theorem filename_order_ties_collapse :
    FilenameInfo.cmp (.archived 1 "system" 1 1 100) (.archived 1 "system" 2 2 100) =
      .eq ∧
    (FilenameInfo.archived 1 "system" 1 1 100) ≠ .archived 1 "system" 2 2 100 := by
  decide

/-- C9 counterexample: with no loaded file, `entry_data` panics instead
of reporting the not-connected error. -/
theorem entry_data_panics_counterexample :
    entry_data ⟨Option.none, Option.none, Option.none⟩ = .panic ∧
    EntryDataOutcome.panic ≠ .errorResult .notConnected := by
  decide

/-- C9 amended: whenever no file is loaded, `entry_data` panics (the
not-connected error is reserved for `selected_journal`). -/
theorem entry_data_panics :
    ∀ st : JournalReaderState, st.current = Option.none → entry_data st = .panic := by
  intro st h
  simp [entry_data, h]

/-- C9 witness. -/
theorem entry_data_panics_witness :
    entry_data ⟨some ⟨1, "system"⟩, Option.none, Option.none⟩ = .panic :=
  entry_data_panics ⟨some ⟨1, "system"⟩, Option.none, Option.none⟩ rfl

/-- C6 counterexample: a regular (non-compact) entry-array item whose
u64 offset is `2^32` resolves successfully to that offset — the walker
applies no u32-fit check, contradicting the claimed invalid-data
error. -/
theorem array_item_u32_check_counterexample :
    resolveEntryArrayItem bigOffsetItemBytes regularHeader 208 = .ok 4294967296 ∧
    (Except.ok 4294967296 : Except ErrKind Nat) ≠ .error .invalidData := by
  constructor
  · decide
  · decide

/-- C1 counterexample: with no entry yielded (`last_seqnum` absent) and
the current file archived, the cross-file step terminates instead of
opening the live file as claimed in case (2). -/
theorem crossfile_handoff_no_seqnum_counterexample :
    crossFileStep Option.none [] (some (.archived 1 "system" 1 1 100)) = .done ∧
    HandoffAction.done ≠ .openLatest := by
  decide

/-- C5 counterexample: for the entry array of declared size 32 in
`twoEntryFileBytes` (compact items), the claim's count
`min(first_zero_index, (size - 16) / item_size)` is 3, but the walker
yields 2 entries: the code divides `payload_size - 8`, not
`payload_size`, by the item stride. -/
theorem capacity_bound_counterexample :
    (walkFile twoEntryFileBytes compactHeader 1 ⟨208, some 0⟩).map
        (fun r => r.1.length) = .ok 2 ∧
    min (firstZeroIndexUpTo twoEntryFileBytes compactHeader 208 ((32 - 16) / 4))
        ((32 - 16) / 4) = 3 ∧
    (2 : Nat) ≠ 3 := by
  refine ⟨by decide, by decide, by decide⟩

/-- C2: on the file whose single entry array names itself as successor,
the entry-array loop of `entries()` re-yields the same entry on every
pass and never exits cleanly, for any amount of fuel: the walker has no
loop detector, so the iterator does not terminate on this finite
input. -/
theorem cyclic_chain_never_terminates :
    ∀ fuel,
      walkFile cyclicFileBytes compactHeader fuel ⟨208, some 0⟩ =
        .ok (List.replicate fuel ⟨236, ⟨5, 1, 1, 1, 0⟩, []⟩, ⟨208, some 0⟩, false) := by
  intro fuel
  induction fuel with
  | zero => rfl
  | succ n ih =>
    have hstep : oneFilePass cyclicFileBytes compactHeader ⟨208, some 0⟩ =
        .ok ([⟨236, ⟨5, 1, 1, 1, 0⟩, []⟩], true, ⟨208, some 0⟩) := by decide
    simp [walkFile, hstep, ih, List.replicate_succ]

/-- A successful entry-array item resolution yields exactly the decoded
item value. -/
theorem resolveEntryArrayItem_ok_val (b : List Nat) (h : Header) (arrOff i v : Nat) :
    resolveEntryArrayItem b h
        (arrOff + OBJECT_HEADER_SIZE + ENTRY_ARRAY_HEADER_SIZE +
          i * h.sizeof_entry_array_item) = .ok v →
    v = arrayItemVal b h arrOff i := by
  unfold resolveEntryArrayItem arrayItemVal EntryArrayCompactItem.read_at
    EntryArrayRegularItem.read_at
  cases hc : h.is_compact <;> simp only [Bool.false_eq_true, if_true, if_false] <;>
    split <;> intro hv <;> simp_all

theorem le_firstZeroAux (b : List Nat) (h : Header) (arrOff : Nat) :
    ∀ k i, i ≤ firstZeroAux b h arrOff i k := by
  intro k
  induction k with
  | zero => intro i; simp [firstZeroAux]
  | succ k ih =>
    intro i
    unfold firstZeroAux
    split
    · exact Nat.le_refl i
    · exact Nat.le_trans (Nat.le_succ i) (ih (i + 1))

theorem firstZeroAux_le (b : List Nat) (h : Header) (arrOff : Nat) :
    ∀ k i, firstZeroAux b h arrOff i k ≤ i + k := by
  intro k
  induction k with
  | zero => intro i; simp [firstZeroAux]
  | succ k ih =>
    intro i
    unfold firstZeroAux
    split
    · omega
    · have := ih (i + 1); omega

theorem firstZeroAux_zero (b : List Nat) (h : Header) (arrOff i : Nat) :
    firstZeroAux b h arrOff i 0 = i := rfl

theorem firstZeroAux_succ (b : List Nat) (h : Header) (arrOff i k : Nat) :
    firstZeroAux b h arrOff i (k + 1) =
      if arrayItemVal b h arrOff i = 0 then i else firstZeroAux b h arrOff (i + 1) k := rfl

theorem walkItemsGo_length (b : List Nat) (h : Header) (arrOff n : Nat) :
    ∀ k i es, k = n - i → i < n → walkItemsGo b h arrOff n k i = .ok es →
      es.length = firstZeroAux b h arrOff i (n - i) - i := by
  intro k
  induction k with
  | zero => intro i es hk hi _; omega
  | succ k ih =>
    intro i es hk hi hw
    rw [walkItemsGo] at hw
    cases hr : resolveEntryArrayItem b h
        (arrOff + OBJECT_HEADER_SIZE + ENTRY_ARRAY_HEADER_SIZE +
          i * h.sizeof_entry_array_item) with
    | error e => rw [hr] at hw; exact absurd hw (by simp)
    | ok off =>
      rw [hr] at hw
      have hval := resolveEntryArrayItem_ok_val b h arrOff i off hr
      have hn1 : n - i = (n - (i + 1)) + 1 := by omega
      by_cases hz : off = 0
      · simp only [hz, if_true] at hw
        cases hw
        rw [hn1, firstZeroAux_succ, ← hval, if_pos hz]
        simp
      · simp only [if_neg hz] at hw
        cases he : Entry.read_at b off h with
        | error e => rw [he] at hw; exact absurd hw (by simp)
        | ok e =>
          rw [he] at hw
          have hfz : firstZeroAux b h arrOff i (n - i) =
              firstZeroAux b h arrOff (i + 1) (n - (i + 1)) := by
            rw [hn1, firstZeroAux_succ, ← hval, if_neg hz]
          by_cases hlt : i + 1 < n
          · simp only [if_pos hlt] at hw
            cases hrec : walkItemsGo b h arrOff n k (i + 1) with
            | error err => rw [hrec] at hw; exact absurd hw (by simp)
            | ok rest =>
              rw [hrec] at hw
              cases hw
              have hrest := ih (i + 1) rest (by omega) hlt hrec
              have hlb := le_firstZeroAux b h arrOff (n - (i + 1)) (i + 1)
              simp only [List.length_cons]
              rw [hfz]
              omega
          · simp only [if_neg hlt] at hw
            cases hw
            have hn2 : n - i = 1 := by omega
            rw [hn2, firstZeroAux_succ, ← hval, if_neg hz, firstZeroAux_zero]
            simp

/-- C5 amended: for an array with at least one item slot, the number of
entries the item loop yields equals
`min(first_zero_index, array_size)` where
`array_size = (payload_size - 8) / item_size` — the 8-byte entry-array
sub-header is subtracted from the payload before dividing. -/
theorem capacity_bound :
    ∀ (b : List Nat) (h : Header) (arrOff n : Nat) (es : List Entry),
      0 < n → walkItems b h arrOff n 0 = .ok es →
      es.length = min (firstZeroIndexUpTo b h arrOff n) n := by
  intro b h arrOff n es hn hw
  have h1 := walkItemsGo_length b h arrOff n (n - 0) 0 es rfl hn hw
  have h2 := firstZeroAux_le b h arrOff n 0
  simp only [firstZeroIndexUpTo]
  simp only [Nat.sub_zero] at h1
  omega

/-- C5 witness: on the concrete two-entry array, the walker yields both
entries and `min(first_zero_index, array_size) = 2`. -/
theorem capacity_bound_witness :
    walkItems twoEntryFileBytes compactHeader 208 2 0 =
      .ok [⟨240, ⟨5, 1, 1, 1, 0⟩, []⟩, ⟨308, ⟨7, 1, 1, 1, 0⟩, []⟩] ∧
    ([(⟨240, ⟨5, 1, 1, 1, 0⟩, []⟩ : Entry), ⟨308, ⟨7, 1, 1, 1, 0⟩, []⟩]).length =
      min (firstZeroIndexUpTo twoEntryFileBytes compactHeader 208 2) 2 :=
  ⟨by decide, capacity_bound twoEntryFileBytes compactHeader 208 2 _ (by decide) (by decide)⟩

/-- C6 amended: in the entry-array walker, a compact item is read as a
u32 and a regular item as a single u64 used directly — item resolution
never raises invalid data, with the resolved offset equal to the stored
value. The 64-bit-offset-must-fit-in-u32 invalid-data check belongs to
the regular entry *object* items read by `Entry::read_at`. -/
theorem item_resolution_characterised :
    ∀ (b : List Nat) (h : Header) (off : Nat),
      (resolveEntryArrayItem b h off ≠ .error .invalidData) ∧
      (h.is_compact = true →
        resolveEntryArrayItem b h off = EntryArrayCompactItem.read_at b off) ∧
      (h.is_compact = false →
        resolveEntryArrayItem b h off = EntryArrayRegularItem.read_at b off) ∧
      (∀ v, EntryArrayRegularItem.read_at b off = .ok v → v = leAt b off 8) ∧
      (h.is_compact = false → off + 16 ≤ b.length → 2 ^ 32 ≤ leAt b off 8 →
        readEntryObjectItem b h off = .error .invalidData) ∧
      (h.is_compact = false → ∀ v, readEntryObjectItem b h off = .ok v →
        v = leAt b off 8 ∧ v < 2 ^ 32) := by
  intro b h off
  refine ⟨?_, ?_, ?_, ?_, ?_, ?_⟩
  · unfold resolveEntryArrayItem EntryArrayCompactItem.read_at EntryArrayRegularItem.read_at
    split <;> split <;> simp
  · intro hc; simp [resolveEntryArrayItem, hc]
  · intro hc; simp [resolveEntryArrayItem, hc]
  · intro v
    unfold EntryArrayRegularItem.read_at
    split <;> intro hv <;> simp_all
  · intro hc hlen hbig
    unfold readEntryObjectItem EntryObjectRegularItem.read_at
    simp only [hc, Bool.false_eq_true, if_false, if_pos hlen]
    simp
    omega
  · intro hc v
    unfold readEntryObjectItem EntryObjectRegularItem.read_at
    simp only [hc, Bool.false_eq_true, if_false]
    by_cases hlen : off + 16 ≤ b.length
    · by_cases hlt : leAt b off 8 < 2 ^ 32
      · simp only [if_pos hlen, if_pos hlt]
        intro hv
        have := Except.ok.inj hv
        subst this
        exact ⟨rfl, hlt⟩
      · simp only [if_pos hlen, if_neg hlt]
        intro hv
        exact absurd hv (by simp)
    · simp only [if_neg hlen]
      intro hv
      exact absurd hv (by simp)

/-- C6 witness: the u32-fit invalid-data check fires for the entry
object item at offset 208 of `bigOffsetItemBytes`, while the entry-array
walker resolves the same bytes as a plain u64 read. -/
theorem item_resolution_witness :
    readEntryObjectItem bigOffsetItemBytes regularHeader 208 = .error .invalidData ∧
    resolveEntryArrayItem bigOffsetItemBytes regularHeader 208 =
      EntryArrayRegularItem.read_at bigOffsetItemBytes 208 :=
  ⟨(item_resolution_characterised bigOffsetItemBytes regularHeader 208).2.2.2.2.1
      (by decide) (by decide) (by decide),
    (item_resolution_characterised bigOffsetItemBytes regularHeader 208).2.2.1 (by decide)⟩

/-- A `next_entry_array` call reporting no successor leaves the position
unchanged, and does so for any index at the same array offset. -/
theorem next_entry_array_ok_false (b : List Nat) (p r : Position) :
    next_entry_array b p = .ok (false, r) →
      r = p ∧ ∀ idx, next_entry_array b ⟨p.entry_array_offset, idx⟩ =
        .ok (false, ⟨p.entry_array_offset, idx⟩) := by
  intro hw
  unfold next_entry_array at hw
  cases h1 : (ObjectHeader.read_at b p.entry_array_offset).bind
      (fun o => o.check_type .entryArray) with
  | error e => rw [h1] at hw; exact absurd hw (by simp)
  | ok o =>
    rw [h1] at hw
    cases h2 : EntryArrayObjectHeader.read_at b (p.entry_array_offset + OBJECT_HEADER_SIZE) with
    | error e => rw [h2] at hw; exact absurd hw (by simp)
    | ok nxt =>
      rw [h2] at hw
      cases nxt with
      | some nxtOff => exact absurd hw (by simp)
      | none =>
        simp only [Except.ok.injEq, Prod.mk.injEq, true_and] at hw
        subst hw
        refine ⟨rfl, fun idx => ?_⟩
        unfold next_entry_array
        simp only [h1, h2]

/-- When the array at `off` has no successor, one pass of the entry-array
loop with a cleared index yields nothing and stops. -/
theorem oneFilePass_terminal (b : List Nat) (h : Header) (off : Nat) :
    next_entry_array b ⟨off, Option.none⟩ = .ok (false, ⟨off, Option.none⟩) →
    oneFilePass b h ⟨off, Option.none⟩ = .ok ([], false, ⟨off, Option.none⟩) := by
  intro hne
  unfold oneFilePass
  cases h1 : (ObjectHeader.read_at b off).bind (fun o => o.check_type .entryArray) with
  | error e =>
    exfalso
    unfold next_entry_array at hne
    rw [h1] at hne
    exact absurd hne (by simp)
  | ok o => simp only [h1, hne]

/-- C10: once `skip_to_end` (the `Seek::Newest` arm after `load`)
completes, the position rests at the last entry array of the chain with
index `None`; from it, `entries()` on the unchanged file yields no
entries and terminates cleanly — the in-file walk produces `[]` without
error and, since no entry was yielded, the cross-file step stops. -/
theorem seek_newest_entries_empty :
    ∀ (b : List Nat) (h : Header) (fuel : Nat) (p q : Position),
      skipToEnd b fuel p = .ok (some q) →
      q.index = Option.none ∧
      next_entry_array b q = .ok (false, q) ∧
      (∀ fw, 0 < fw → walkFile b h fw q = .ok ([], q, true)) ∧
      (∀ files cur, crossFileStep Option.none files cur = .done) := by
  intro b h fuel
  induction fuel with
  | zero => intro p q hw; exact absurd hw (by simp [skipToEnd])
  | succ n ih =>
    intro p q hw
    rw [skipToEnd] at hw
    cases hne : next_entry_array b p with
    | error e => rw [hne] at hw; exact absurd hw (by simp)
    | ok br =>
      obtain ⟨more, p1⟩ := br
      cases more with
      | true => rw [hne] at hw; exact ih p1 q hw
      | false =>
        rw [hne] at hw
        simp only [Except.ok.injEq, Option.some.injEq] at hw
        obtain ⟨hp1, hall⟩ := next_entry_array_ok_false b p p1 hne
        rw [hp1] at hw
        subst hw
        have hq := hall Option.none
        refine ⟨rfl, hq, fun fw hfw => ?_, fun files cur => rfl⟩
        obtain ⟨fw', rfl⟩ := Nat.exists_eq_succ_of_ne_zero (Nat.pos_iff_ne_zero.mp hfw)
        rw [walkFile]
        rw [oneFilePass_terminal b h p.entry_array_offset hq]

/-- C10 witness: on the two-entry file, `skip_to_end` lands on the sole
entry array with index `None`, and the walker then yields nothing. -/
theorem seek_newest_entries_empty_witness :
    walkFile twoEntryFileBytes compactHeader 1 ⟨208, Option.none⟩ =
      .ok ([], ⟨208, Option.none⟩, true) :=
  ((seek_newest_entries_empty twoEntryFileBytes compactHeader 1 ⟨208, some 0⟩
      ⟨208, Option.none⟩ (by decide)).2.2.1) 1 (by decide)

/-- C8: `select` clears the selection, the loaded file and the open path
before doing anything; on any error the reader is left unselected with
no position, including the not-found case when neither the live file nor
any archived file exists; on success the requested journal is recorded,
an openable file ends up open, and any prior position is gone. -/
theorem select_state_contract :
    ∀ (io : SelectIo) (st : JournalReaderState) (j : JournalSelection),
      (∀ e, (JournalReader.select io st j).1 = .error e →
        (JournalReader.select io st j).2.select = Option.none ∧
        (JournalReader.select io st j).2.current = Option.none) ∧
      ((JournalReader.select io st j).1 = .ok () →
        (JournalReader.select io st j).2.select = some j ∧
        (JournalReader.select io st j).2.current = Option.none ∧
        ∃ p, (JournalReader.select io st j).2.ioCurrent = some p ∧
          io.openResult p = .ok ()) ∧
      (io.openResult (make_filename (.latest j.machine_id j.scope)) = .error .notFound →
        io.listFilesPrefixed (makePrefix j) = [] →
        (JournalReader.select io st j).1 = .error .notFound) := by
  intro io st j
  dsimp only [JournalReader.select]
  cases ho : io.openResult (make_filename (.latest j.machine_id j.scope)) with
  | ok u =>
    cases u
    exact ⟨fun e he => absurd he (by simp),
      fun _ => ⟨rfl, rfl, make_filename (.latest j.machine_id j.scope), rfl, ho⟩,
      fun hnf => absurd hnf (by simp)⟩
  | error e =>
    dsimp only
    by_cases hnf : e = ErrKind.notFound
    · subst hnf
      simp only [ne_eq, not_true_eq_false, if_false]
      cases hl : (io.listFilesPrefixed (makePrefix j)).head? with
      | none => exact ⟨fun e2 he2 => ⟨rfl, rfl⟩, fun hok => absurd hok (by simp), fun _ _ => rfl⟩
      | some r =>
        cases r with
        | error e2 =>
          refine ⟨fun e3 he3 => ⟨rfl, rfl⟩, fun hok => absurd hok (by simp), fun _ hempty => ?_⟩
          rw [hempty] at hl
          exact absurd hl (by simp)
        | ok f =>
          dsimp only
          cases ho2 : io.openResult (make_filename f) with
          | ok u2 =>
            cases u2
            refine ⟨fun e3 he3 => absurd he3 (by simp), fun _ => ⟨rfl, rfl, ?_⟩,
              fun _ hempty => ?_⟩
            · exact ⟨make_filename f, rfl, ho2⟩
            · rw [hempty] at hl
              exact absurd hl (by simp)
          | error e3 =>
            refine ⟨fun e4 he4 => ⟨rfl, rfl⟩, fun hok => absurd hok (by simp),
              fun _ hempty => ?_⟩
            rw [hempty] at hl
            exact absurd hl (by simp)
    · rw [if_pos hnf]
      exact ⟨fun e2 he2 => ⟨rfl, rfl⟩, fun hok => absurd hok (by simp),
        fun hnf2 _ => absurd (Except.error.inj hnf2) hnf⟩

/-- A storage adapter fixture for the select witness: only the live file
`1/system` exists, the prefix listing is empty. -/
def selectIoFixture : SelectIo :=
  ⟨fun p => if p = make_filename (.latest 1 "system") then .ok () else .error .notFound,
    fun _ => []⟩

/-- C8 witness: selecting `(1, "system")` against `selectIoFixture`
succeeds, records the selection, clears the position, and leaves an
openable file open. -/
theorem select_state_contract_witness :
    (JournalReader.select selectIoFixture ⟨Option.none, Option.none, Option.none⟩
        ⟨1, "system"⟩).2.select = some ⟨1, "system"⟩ ∧
    (JournalReader.select selectIoFixture ⟨Option.none, Option.none, Option.none⟩
        ⟨1, "system"⟩).2.current = Option.none ∧
    ∃ p, (JournalReader.select selectIoFixture ⟨Option.none, Option.none, Option.none⟩
        ⟨1, "system"⟩).2.ioCurrent = some p ∧ selectIoFixture.openResult p = .ok () :=
  (select_state_contract selectIoFixture ⟨Option.none, Option.none, Option.none⟩
      ⟨1, "system"⟩).2.1 (by decide)

/-! ## Ordering lemmas for the handoff characterisation -/

theorem cmp_archived_archived (amid bmid : Nat) (ascope bscope : String)
    (afs bfs ahs bhs : Nat) (ahr bhr : Int) :
    FilenameInfo.cmp (.archived amid ascope afs ahs ahr)
      (.archived bmid bscope bfs bhs bhr) = cmpInt ahr bhr := rfl

theorem cmp_latest_latest (amid bmid : Nat) (ascope bscope : String) :
    FilenameInfo.cmp (.latest amid ascope) (.latest bmid bscope) =
      cmpString ascope bscope := rfl

theorem cmp_archived_latest (amid bmid : Nat) (ascope bscope : String)
    (afs ahs : Nat) (ahr : Int) :
    FilenameInfo.cmp (.archived amid ascope afs ahs ahr) (.latest bmid bscope) = .lt := rfl

theorem cmp_latest_archived (amid bmid : Nat) (ascope bscope : String)
    (bfs bhs : Nat) (bhr : Int) :
    FilenameInfo.cmp (.latest amid ascope) (.archived bmid bscope bfs bhs bhr) = .gt := rfl

theorem cmpInt_lt_iff (a b : Int) : cmpInt a b = .lt ↔ a < b := by
  unfold cmpInt
  split_ifs <;> simp <;> omega

theorem cmpInt_not_gt_iff (a b : Int) : cmpInt a b ≠ .gt ↔ a ≤ b := by
  unfold cmpInt
  split_ifs <;> simp <;> omega

theorem cmpInt_self (a : Int) : cmpInt a a = .eq := by
  unfold cmpInt
  simp

theorem cmpInt_swap (a b : Int) : cmpInt b a = (cmpInt a b).swap := by
  unfold cmpInt
  rcases lt_trichotomy a b with h | h | h
  · rw [if_pos h, if_neg (by omega), if_neg (by omega)]
    rfl
  · subst h
    rw [if_neg (lt_irrefl a), if_pos rfl]
    rfl
  · rw [if_pos h, if_neg (by omega), if_neg (by omega)]
    rfl

theorem cmpInt_le_trans (a b c : Int) :
    cmpInt a b ≠ .gt → cmpInt b c ≠ .gt → cmpInt a c ≠ .gt := by
  rw [cmpInt_not_gt_iff, cmpInt_not_gt_iff, cmpInt_not_gt_iff]
  omega

theorem cmpNat_lt_iff (a b : Nat) : cmpNat a b = .lt ↔ a < b := by
  unfold cmpNat
  split_ifs <;> simp <;> omega

theorem cmpNat_eq_iff (a b : Nat) : cmpNat a b = .eq ↔ a = b := by
  unfold cmpNat
  split_ifs <;> simp <;> omega

theorem cmpNat_not_gt_iff (a b : Nat) : cmpNat a b ≠ .gt ↔ a ≤ b := by
  unfold cmpNat
  split_ifs <;> simp <;> omega

theorem cmpNat_self (a : Nat) : cmpNat a a = .eq := by
  unfold cmpNat
  simp

theorem cmpNat_swap (a b : Nat) : cmpNat b a = (cmpNat a b).swap := by
  unfold cmpNat
  rcases Nat.lt_trichotomy a b with h | h | h
  · rw [if_pos h, if_neg (by omega), if_neg (by omega)]
    rfl
  · subst h
    rw [if_neg (Nat.lt_irrefl a), if_pos rfl]
    rfl
  · rw [if_pos h, if_neg (by omega), if_neg (by omega)]
    rfl

theorem cmpChar_self (a : Char) : cmpChar a a = .eq := cmpNat_self a.toNat

theorem cmpChar_swap (a b : Char) : cmpChar b a = (cmpChar a b).swap :=
  cmpNat_swap a.toNat b.toNat

theorem cmpCharList_self : ∀ a, cmpCharList a a = .eq
  | [] => rfl
  | c :: rest => by
    unfold cmpCharList
    rw [cmpChar_self]
    exact cmpCharList_self rest

theorem cmpCharList_swap : ∀ a b, cmpCharList b a = (cmpCharList a b).swap := by
  intro a
  induction a with
  | nil => intro b; cases b <;> rfl
  | cons c rest ih =>
    intro b
    cases b with
    | nil => rfl
    | cons d ds =>
      show cmpCharList (d :: ds) (c :: rest) = (cmpCharList (c :: rest) (d :: ds)).swap
      unfold cmpCharList
      rw [cmpChar_swap c d]
      cases hcd : cmpChar c d <;> simp [Ordering.swap, ih ds]

theorem cmpCharList_cons (a b : Char) (as_ bs : List Char) :
    cmpCharList (a :: as_) (b :: bs) =
      match cmpChar a b with
      | .eq => cmpCharList as_ bs
      | o => o := rfl

theorem cmpCharList_le_trans : ∀ a b c : List Char,
    cmpCharList a b ≠ .gt → cmpCharList b c ≠ .gt → cmpCharList a c ≠ .gt := by
  intro a
  induction a with
  | nil =>
    intro b c _ _
    cases c <;> simp [cmpCharList]
  | cons x xs ih =>
    intro b c h1 h2
    cases b with
    | nil => exact absurd rfl h1
    | cons y ys =>
      cases c with
      | nil => exact absurd rfl h2
      | cons z zs =>
        rw [cmpCharList_cons] at h1
        rw [cmpCharList_cons] at h2
        rw [cmpCharList_cons]
        cases hxy : cmpChar x y with
        | gt => rw [hxy] at h1; exact absurd rfl h1
        | lt =>
          rw [hxy] at h1
          have hxyn : x.toNat < y.toNat := (cmpNat_lt_iff _ _).mp hxy
          cases hyz : cmpChar y z with
          | gt => rw [hyz] at h2; exact absurd rfl h2
          | lt =>
            have hyzn : y.toNat < z.toNat := (cmpNat_lt_iff _ _).mp hyz
            have : cmpChar x z = .lt := (cmpNat_lt_iff _ _).mpr (by omega)
            rw [this]
            simp
          | eq =>
            have hyzn : y.toNat = z.toNat := (cmpNat_eq_iff _ _).mp hyz
            have : cmpChar x z = .lt := (cmpNat_lt_iff _ _).mpr (by omega)
            rw [this]
            simp
        | eq =>
          rw [hxy] at h1
          have hxyn : x.toNat = y.toNat := (cmpNat_eq_iff _ _).mp hxy
          cases hyz : cmpChar y z with
          | gt => rw [hyz] at h2; exact absurd rfl h2
          | lt =>
            have hyzn : y.toNat < z.toNat := (cmpNat_lt_iff _ _).mp hyz
            have : cmpChar x z = .lt := (cmpNat_lt_iff _ _).mpr (by omega)
            rw [this]
            simp
          | eq =>
            rw [hyz] at h2
            have hyzn : y.toNat = z.toNat := (cmpNat_eq_iff _ _).mp hyz
            have : cmpChar x z = .eq := (cmpNat_eq_iff _ _).mpr (by omega)
            rw [this]
            exact ih ys zs h1 h2

theorem cmpString_self (a : String) : cmpString a a = .eq := cmpCharList_self a.data

theorem cmpString_swap (a b : String) : cmpString b a = (cmpString a b).swap :=
  cmpCharList_swap a.data b.data

theorem cmpString_le_trans (a b c : String) :
    cmpString a b ≠ .gt → cmpString b c ≠ .gt → cmpString a c ≠ .gt :=
  cmpCharList_le_trans a.data b.data c.data

theorem cmp_self (a : FilenameInfo) : FilenameInfo.cmp a a = .eq := by
  cases a with
  | archived mid scope fs hs hr => rw [cmp_archived_archived]; exact cmpInt_self hr
  | latest mid scope => rw [cmp_latest_latest]; exact cmpString_self scope

theorem cmp_swap (a b : FilenameInfo) :
    FilenameInfo.cmp b a = (FilenameInfo.cmp a b).swap := by
  cases a with
  | archived amid ascope afs ahs ahr =>
    cases b with
    | archived bmid bscope bfs bhs bhr =>
      rw [cmp_archived_archived, cmp_archived_archived, cmpInt_swap]
    | latest bmid bscope => rfl
  | latest amid ascope =>
    cases b with
    | archived bmid bscope bfs bhs bhr => rfl
    | latest bmid bscope =>
      rw [cmp_latest_latest, cmp_latest_latest, cmpString_swap]

theorem cmp_le_trans (a b c : FilenameInfo) :
    FilenameInfo.cmp a b ≠ .gt → FilenameInfo.cmp b c ≠ .gt →
    FilenameInfo.cmp a c ≠ .gt := by
  cases a <;> cases b <;> cases c <;>
    simp only [cmp_archived_archived, cmp_latest_latest, cmp_archived_latest,
      cmp_latest_archived]
  case archived.archived.archived => exact cmpInt_le_trans _ _ _
  case archived.archived.latest => simp
  case archived.latest.archived => intro _ h2; exact absurd rfl h2
  case archived.latest.latest => simp
  case latest.archived.archived => intro h1; exact absurd rfl h1
  case latest.archived.latest => intro h1; exact absurd rfl h1
  case latest.latest.archived => intro _ h2; exact absurd rfl h2
  case latest.latest.latest => exact cmpString_le_trans _ _ _

theorem cmp_not_lt_not_gt (a b : FilenameInfo) :
    FilenameInfo.cmp a b ≠ .lt → FilenameInfo.cmp b a ≠ .gt := by
  intro h
  rw [cmp_swap]
  cases hab : FilenameInfo.cmp a b <;> simp_all [Ordering.swap]

/-- The `btreeMin` fold starting from `some m` results in the earliest
minimum of `m` and the list. -/
theorem foldl_btreeMin_spec :
    ∀ (l : List FilenameInfo) (m f : FilenameInfo),
      List.foldl btreeMin (some m) l = some f →
      (f = m ∨ f ∈ l) ∧ FilenameInfo.cmp f m ≠ .gt ∧
        ∀ g ∈ l, FilenameInfo.cmp f g ≠ .gt := by
  intro l
  induction l with
  | nil =>
    intro m f hf
    simp only [List.foldl_nil, Option.some.injEq] at hf
    subst hf
    exact ⟨Or.inl rfl, by simp [cmp_self], by simp⟩
  | cons x xs ih =>
    intro m f hf
    rw [List.foldl_cons] at hf
    by_cases hx : FilenameInfo.cmp x m = .lt
    · rw [show btreeMin (some m) x = some x by simp [btreeMin, hx]] at hf
      obtain ⟨hmem, hfx, hall⟩ := ih x f hf
      refine ⟨?_, ?_, ?_⟩
      · rcases hmem with rfl | hmem
        · exact Or.inr (by simp)
        · exact Or.inr (by simp [hmem])
      · exact cmp_le_trans f x m hfx (by simp [hx])
      · intro g hg
        rcases List.mem_cons.mp hg with rfl | hg
        · exact hfx
        · exact hall g hg
    · rw [show btreeMin (some m) x = some m by simp [btreeMin, hx]] at hf
      obtain ⟨hmem, hfm, hall⟩ := ih m f hf
      refine ⟨?_, hfm, ?_⟩
      · rcases hmem with rfl | hmem
        · exact Or.inl rfl
        · exact Or.inr (by simp [hmem])
      · intro g hg
        rcases List.mem_cons.mp hg with rfl | hg
        · exact cmp_le_trans f m g hfm (cmp_not_lt_not_gt g m hx)
        · exact hall g hg

theorem foldl_btreeMin_isSome :
    ∀ (l : List FilenameInfo) (m : FilenameInfo),
      ∃ f, List.foldl btreeMin (some m) l = some f := by
  intro l
  induction l with
  | nil => exact fun m => ⟨m, rfl⟩
  | cons x xs ih =>
    intro m
    rw [List.foldl_cons]
    by_cases hx : FilenameInfo.cmp x m = .lt
    · rw [show btreeMin (some m) x = some x by simp [btreeMin, hx]]
      exact ih x
    · rw [show btreeMin (some m) x = some m by simp [btreeMin, hx]]
      exact ih m

/-- `btreeFirst` of a nonempty list is a minimal member. -/
theorem btreeFirst_spec (l : List FilenameInfo) (f : FilenameInfo) :
    btreeFirst l = some f → f ∈ l ∧ ∀ g ∈ l, FilenameInfo.cmp f g ≠ .gt := by
  cases l with
  | nil => intro hf; exact absurd hf (by simp [btreeFirst])
  | cons x xs =>
    intro hf
    unfold btreeFirst at hf
    rw [List.foldl_cons, show btreeMin Option.none x = some x from rfl] at hf
    obtain ⟨hmem, hfx, hall⟩ := foldl_btreeMin_spec xs x f hf
    refine ⟨?_, ?_⟩
    · rcases hmem with rfl | hmem
      · simp
      · simp [hmem]
    · intro g hg
      rcases List.mem_cons.mp hg with rfl | hg
      · exact hfx
      · exact hall g hg

theorem btreeFirst_isSome (l : List FilenameInfo) (hl : l ≠ []) :
    ∃ f, btreeFirst l = some f := by
  cases l with
  | nil => exact absurd rfl hl
  | cons x xs =>
    unfold btreeFirst
    rw [List.foldl_cons, show btreeMin Option.none x = some x from rfl]
    exact foldl_btreeMin_isSome xs x

/-- Every handoff candidate is an archived filename whose `head_seqnum`
strictly exceeds the last yielded sequence number. -/
theorem mem_handoffCandidates (seq : Nat) (files : List (Except ErrKind FilenameInfo))
    (f : FilenameInfo) :
    f ∈ handoffCandidates seq files →
    ∃ mid scope fs hs hr, f = .archived mid scope fs hs hr ∧ seq < hs := by
  intro hf
  unfold handoffCandidates at hf
  rw [List.mem_filterMap] at hf
  obtain ⟨r, _, hres⟩ := hf
  cases r with
  | error e => exact absurd hres (by simp)
  | ok g =>
    cases g with
    | latest mid scope => exact absurd hres (by simp)
    | archived mid scope fs hs hr =>
      dsimp only at hres
      by_cases hlt : seq < hs
      · rw [if_pos hlt] at hres
        cases hres
        exact ⟨mid, scope, fs, hs, hr, rfl, hlt⟩
      · rw [if_neg hlt] at hres
        exact absurd hres (by simp)

/-- C1 amended: when the in-file walker is exhausted, (1) with at least
one yielded entry and candidates (archived, `head_seqnum >
last_seqnum`), `entries()` opens the earliest `cmp`-minimal candidate;
(2) with a yielded entry but no candidate it opens the live file exactly
when the current file is archived, else terminates; (3) with no yielded
entry it always terminates — even when the current file is archived. -/
theorem crossfile_handoff_characterised :
    ∀ (seq : Nat) (files : List (Except ErrKind FilenameInfo)) (cur : Option FilenameInfo),
      crossFileStep Option.none files cur = .done ∧
      (handoffCandidates seq files = [] →
        crossFileStep (some seq) files cur =
          (if (cur.map FilenameInfo.is_archived).getD false then .openLatest else .done)) ∧
      (handoffCandidates seq files ≠ [] →
        ∃ f, crossFileStep (some seq) files cur = .openArchived f ∧
          f ∈ handoffCandidates seq files ∧
          (∃ mid scope fs hs hr, f = .archived mid scope fs hs hr ∧ seq < hs) ∧
          ∀ g ∈ handoffCandidates seq files, FilenameInfo.cmp f g ≠ .gt) := by
  intro seq files cur
  refine ⟨rfl, ?_, ?_⟩
  · intro hempty
    unfold crossFileStep
    dsimp only
    rw [hempty]
    rfl
  · intro hne
    obtain ⟨f, hf⟩ := btreeFirst_isSome _ hne
    obtain ⟨hmem, hmin⟩ := btreeFirst_spec _ f hf
    refine ⟨f, ?_, hmem, mem_handoffCandidates seq files f hmem, hmin⟩
    unfold crossFileStep
    dsimp only
    rw [hf]

/-- C1 witness: with a yielded entry and no candidate the archived
current file hands off to the live file; with a candidate present the
first candidate is opened. -/
theorem crossfile_handoff_witness :
    crossFileStep (some 5) [.ok (.latest 1 "system")]
      (some (.archived 1 "system" 9 2 50)) = .openLatest ∧
    ∃ f, crossFileStep (some 1) [.ok (.archived 1 "system" 9 2 50), .error .ioOther]
      Option.none = .openArchived f := by
  constructor
  · exact ((crossfile_handoff_characterised 5 [.ok (.latest 1 "system")]
      (some (.archived 1 "system" 9 2 50))).2.1 (by decide)).trans (by decide)
  · obtain ⟨f, hf, -⟩ := (crossfile_handoff_characterised 1
      [.ok (.archived 1 "system" 9 2 50), .error .ioOther] Option.none).2.2 (by decide)
    exact ⟨f, hf⟩

/-! ## Filename round-trip (C4) -/

/-- C4 counterexample: the round trip fails for arbitrary inputs — the
reserved scope `fss` parses to `None`, and an archived name with a
negative timestamp encodes as 0 (`unwrap_or_default`) and parses back
changed. -/
theorem filename_roundtrip_counterexample :
    parse_filename (make_filename (.latest 0 "fss")) = Option.none ∧
    parse_filename (make_filename (.archived 0 "s" 1 1 (-5))) =
      some (.archived 0 "s" 1 1 0) ∧
    (FilenameInfo.archived 0 "s" 1 1 (-5)) ≠ .archived 0 "s" 1 1 0 := by
  refine ⟨by decide, by decide, by decide⟩

theorem hexDigitVal_hexDigitChar (d : Nat) (hd : d < 16) :
    hexDigitVal (hexDigitChar d) = some d := by
  interval_cases d <;> decide

theorem hexDigitChar_not_special (d : Nat) (hd : d < 16) :
    hexDigitChar d ≠ '@' ∧ hexDigitChar d ≠ '-' ∧ hexDigitChar d ≠ '.' ∧
      hexDigitChar d ≠ '/' := by
  interval_cases d <;> decide

theorem natToBEBytes_length : ∀ k v, (natToBEBytes k v).length = k := by
  intro k
  induction k with
  | zero => intro v; rfl
  | succ k ih => intro v; simp [natToBEBytes, ih]

theorem natToBEBytes_lt : ∀ k v, v < 256 ^ k → ∀ byte ∈ natToBEBytes k v, byte < 256 := by
  intro k
  induction k with
  | zero => intro v _ byte hb; simp [natToBEBytes] at hb
  | succ k ih =>
    intro v hv byte hb
    simp only [natToBEBytes, List.mem_cons] at hb
    rcases hb with rfl | hb
    · have h256 : 0 < 256 ^ k := Nat.pos_pow_of_pos k (by omega)
      rw [pow_succ] at hv
      exact Nat.div_lt_of_lt_mul hv
    · exact ih (v % 256 ^ k) (Nat.mod_lt v (Nat.pos_pow_of_pos k (by omega))) byte hb

theorem hexDecode_hexEncodeBytes :
    ∀ bs, (∀ byte ∈ bs, byte < 256) → hexDecode (hexEncodeBytes bs) = some bs := by
  intro bs
  induction bs with
  | nil => intro _; rfl
  | cons byte rest ih =>
    intro hb
    have hbyte : byte < 256 := hb byte (by simp)
    have hhi : byte / 16 < 16 := by omega
    have hlo : byte % 16 < 16 := by omega
    show hexDecode (hexDigitChar (byte / 16) :: hexDigitChar (byte % 16) ::
      hexEncodeBytes rest) = some (byte :: rest)
    unfold hexDecode
    rw [hexDigitVal_hexDigitChar _ hhi, hexDigitVal_hexDigitChar _ hlo,
      ih (fun x hx => hb x (by simp [hx]))]
    have hb2 : 16 * (byte / 16) + byte % 16 = byte := by omega
    simp [hb2]

theorem foldl_bytesBE :
    ∀ (k v a : Nat), v < 256 ^ k →
      List.foldl (fun x byte => x * 256 + byte) a (natToBEBytes k v) = a * 256 ^ k + v := by
  intro k
  induction k with
  | zero =>
    intro v a hv
    interval_cases v
    simp [natToBEBytes]
  | succ k ih =>
    intro v a hv
    show List.foldl _ _ (v / 256 ^ k :: natToBEBytes k (v % 256 ^ k)) = _
    rw [List.foldl_cons,
      ih (v % 256 ^ k) _ (Nat.mod_lt v (Nat.pos_pow_of_pos k (by omega)))]
    have h2 : v / 256 ^ k * 256 ^ k + v % 256 ^ k = v := Nat.div_add_mod' v (256 ^ k)
    rw [pow_succ]
    calc (a * 256 + v / 256 ^ k) * 256 ^ k + v % 256 ^ k
        = a * (256 ^ k * 256) + (v / 256 ^ k * 256 ^ k + v % 256 ^ k) := by ring
      _ = a * (256 ^ k * 256) + v := by rw [h2]

theorem bytesBEToNat_natToBEBytes (k v : Nat) (hv : v < 256 ^ k) :
    bytesBEToNat (natToBEBytes k v) = v := by
  unfold bytesBEToNat
  rw [foldl_bytesBE k v 0 hv]
  simp

theorem hexDecode_hexEncode (k v : Nat) (hv : v < 256 ^ k) :
    hexDecode (hexEncode k v) = some (natToBEBytes k v) :=
  hexDecode_hexEncodeBytes _ (natToBEBytes_lt k v hv)

theorem mem_hexEncodeBytes :
    ∀ bs, (∀ byte ∈ bs, byte < 256) → ∀ c ∈ hexEncodeBytes bs,
      c ≠ '@' ∧ c ≠ '-' ∧ c ≠ '.' ∧ c ≠ '/' := by
  intro bs
  induction bs with
  | nil => intro _ c hc; simp [hexEncodeBytes] at hc
  | cons byte rest ih =>
    intro hb c hc
    have hbyte : byte < 256 := hb byte (by simp)
    simp only [hexEncodeBytes, List.mem_cons] at hc
    rcases hc with rfl | rfl | hc
    · exact hexDigitChar_not_special _ (by omega)
    · exact hexDigitChar_not_special _ (by omega)
    · exact ih (fun x hx => hb x (by simp [hx])) c hc

theorem not_mem_hexEncode (k v : Nat) (hv : v < 256 ^ k) :
    '@' ∉ hexEncode k v ∧ '-' ∉ hexEncode k v ∧ '.' ∉ hexEncode k v ∧
      '/' ∉ hexEncode k v := by
  have hspec := mem_hexEncodeBytes (natToBEBytes k v) (natToBEBytes_lt k v hv)
  exact ⟨fun hmem => (hspec _ hmem).1 rfl, fun hmem => (hspec _ hmem).2.1 rfl,
    fun hmem => (hspec _ hmem).2.2.1 rfl, fun hmem => (hspec _ hmem).2.2.2 rfl⟩

theorem hexEncodeBytes_length : ∀ bs, (hexEncodeBytes bs).length = 2 * bs.length := by
  intro bs
  induction bs with
  | nil => rfl
  | cons byte rest ih => simp [hexEncodeBytes, ih]; omega

theorem hexEncode_length (k v : Nat) : (hexEncode k v).length = 2 * k := by
  unfold hexEncode
  rw [hexEncodeBytes_length, natToBEBytes_length]

theorem splitOnceList_append (sep : Char) :
    ∀ a b, sep ∉ a → splitOnceList sep (a ++ sep :: b) = some (a, b) := by
  intro a
  induction a with
  | nil => intro b _; simp [splitOnceList]
  | cons c rest ih =>
    intro b ha
    have hc : c ≠ sep := fun h => ha (by simp [h])
    show (if c = sep then some ([], rest ++ sep :: b)
        else (splitOnceList sep (rest ++ sep :: b)).map fun p => (c :: p.1, p.2)) =
      some (c :: rest, b)
    rw [if_neg hc, ih b (fun h => ha (by simp [h]))]
    rfl

theorem splitOnceList_none (sep : Char) :
    ∀ l, sep ∉ l → splitOnceList sep l = Option.none := by
  intro l
  induction l with
  | nil => intro _; rfl
  | cons c rest ih =>
    intro hl
    have hc : c ≠ sep := fun h => hl (by simp [h])
    show (if c = sep then some ([], rest)
        else (splitOnceList sep rest).map fun p => (c :: p.1, p.2)) = Option.none
    rw [if_neg hc, ih (fun h => hl (by simp [h]))]
    rfl

theorem splitPath_no_slash : ∀ a, '/' ∉ a → splitPath a = [a] := by
  intro a
  induction a with
  | nil => intro _; rfl
  | cons c rest ih =>
    intro ha
    have hc : ¬c = '/' := fun h => ha (by simp [h])
    show (if c = '/' then [] :: splitPath rest
        else match splitPath rest with
          | [] => [[c]]
          | h :: t => (c :: h) :: t) = [c :: rest]
    rw [if_neg hc, ih (fun h => ha (by simp [h]))]

theorem splitPath_append :
    ∀ a b, '/' ∉ a → splitPath (a ++ '/' :: b) = a :: splitPath b := by
  intro a
  induction a with
  | nil => intro b _; simp [splitPath]
  | cons c rest ih =>
    intro b ha
    have hc : ¬c = '/' := fun h => ha (by simp [h])
    show (if c = '/' then [] :: splitPath (rest ++ '/' :: b)
        else match splitPath (rest ++ '/' :: b) with
          | [] => [[c]]
          | h :: t => (c :: h) :: t) = (c :: rest) :: splitPath b
    rw [if_neg hc, ih b (fun h => ha (by simp [h]))]

theorem stringMk_data (s : String) : String.mk s.data = s := rfl

theorem keepComponent_true (c : List Char) (h1 : c ≠ []) (h2 : c ≠ ['.']) :
    keepComponent c = true := by
  unfold keepComponent
  cases c with
  | nil => exact absurd rfl h1
  | cons x xs => simp [h2]

/-- The domain on which the filename scheme round-trips: hex fields in
range, `NonZero` fields nonzero, timestamps nonnegative (and in jiff
range), and scopes free of the separator characters the parser splits on
(`'/'`, `'@'`, and for latest files `'.'` and the reserved `fss`). -/
def roundtripValid : FilenameInfo → Prop
  | .latest machine_id scope =>
      machine_id < 2 ^ 128 ∧ '/' ∉ scope.data ∧ '@' ∉ scope.data ∧ '.' ∉ scope.data ∧
        scope ≠ "fss"
  | .archived machine_id scope file_seqnum head_seqnum head_realtime =>
      machine_id < 2 ^ 128 ∧ '/' ∉ scope.data ∧ '@' ∉ scope.data ∧
        0 < file_seqnum ∧ file_seqnum < 2 ^ 128 ∧
        0 < head_seqnum ∧ head_seqnum < 2 ^ 64 ∧
        0 ≤ head_realtime ∧ head_realtime ≤ jiffMaxMicros

theorem notMemAppend {a : Char} {l1 l2 : List Char} (h1 : a ∉ l1) (h2 : a ∉ l2) :
    a ∉ l1 ++ l2 := fun h => (List.mem_append.mp h).elim h1 h2

theorem notMemCons {a b : Char} {l : List Char} (h1 : a ≠ b) (h2 : a ∉ l) :
    a ∉ b :: l := fun h => (List.mem_cons.mp h).elim h1 h2

/-- C4 amended: `parse_filename` inverts `make_filename` on
`roundtripValid` inputs (for arbitrary inputs the round trip fails, see
the counterexample). -/
theorem filename_roundtrip :
    ∀ info, roundtripValid info → parse_filename (make_filename info) = some info := by
  intro info hv
  cases info with
  | latest machine_id scope =>
    obtain ⟨hmid, hslash, hat, hdot, hfss⟩ := hv
    have hmid256 : machine_id < 256 ^ 16 := by
      have h256 : (256 : Nat) ^ 16 = 2 ^ 128 := by norm_num
      omega
    obtain ⟨hEat, hEdash, hEdot, hEslash⟩ := not_mem_hexEncode 16 machine_id hmid256
    have hfname_slash : '/' ∉ scope.data ++ ['.', 'j', 'o', 'u', 'r', 'n', 'a', 'l'] :=
      notMemAppend hslash (by decide)
    have hfname_at : '@' ∉ scope.data ++ ['.', 'j', 'o', 'u', 'r', 'n', 'a', 'l'] :=
      notMemAppend hat (by decide)
    have hlenE : (hexEncode 16 machine_id).length = 32 := hexEncode_length 16 machine_id
    have hk1 : keepComponent (hexEncode 16 machine_id) = true :=
      keepComponent_true _ (by intro h; rw [h] at hlenE; simp at hlenE)
        (by intro h; rw [h] at hlenE; simp at hlenE)
    have hflen : (scope.data ++ ['.', 'j', 'o', 'u', 'r', 'n', 'a', 'l']).length =
        scope.data.length + 8 := by simp
    have hk2 : keepComponent (scope.data ++ ['.', 'j', 'o', 'u', 'r', 'n', 'a', 'l']) =
        true :=
      keepComponent_true _ (by intro h; rw [h] at hflen; simp at hflen)
        (by intro h; rw [h] at hflen; simp at hflen)
    have hne : ¬(scope.data = ['f', 's', 's']) := by
      intro h
      exact hfss (by rw [← stringMk_data scope, h])
    show parse_filename
      (hexEncode 16 machine_id ++ '/' ::
        (scope.data ++ ['.', 'j', 'o', 'u', 'r', 'n', 'a', 'l'])) = _
    unfold parse_filename
    rw [splitPath_append _ _ hEslash, splitPath_no_slash _ hfname_slash]
    rw [show List.filter keepComponent
        [hexEncode 16 machine_id, scope.data ++ ['.', 'j', 'o', 'u', 'r', 'n', 'a', 'l']] =
        [hexEncode 16 machine_id, scope.data ++ ['.', 'j', 'o', 'u', 'r', 'n', 'a', 'l']]
        from by simp [List.filter, hk1, hk2]]
    rw [show ([hexEncode 16 machine_id,
        scope.data ++ ['.', 'j', 'o', 'u', 'r', 'n', 'a', 'l']]).reverse =
        [scope.data ++ ['.', 'j', 'o', 'u', 'r', 'n', 'a', 'l'], hexEncode 16 machine_id]
        from rfl]
    dsimp only
    rw [hexDecode_hexEncode 16 machine_id hmid256]
    dsimp only
    rw [if_pos (natToBEBytes_length 16 machine_id)]
    rw [splitOnceList_none '@' _ hfname_at]
    dsimp only
    rw [splitOnceList_append '.' scope.data ['j', 'o', 'u', 'r', 'n', 'a', 'l'] hdot]
    dsimp only
    rw [if_neg hne, bytesBEToNat_natToBEBytes 16 machine_id hmid256, stringMk_data]
  | archived machine_id scope file_seqnum head_seqnum head_realtime =>
    obtain ⟨hmid, hslash, hat, hfs0, hfs, hhs0, hhs, hhr0, hhrM⟩ := hv
    have hmid256 : machine_id < 256 ^ 16 := by
      have h256 : (256 : Nat) ^ 16 = 2 ^ 128 := by norm_num
      omega
    have hfs256 : file_seqnum < 256 ^ 16 := by
      have h256 : (256 : Nat) ^ 16 = 2 ^ 128 := by norm_num
      omega
    have hhs256 : head_seqnum < 256 ^ 8 := by
      have h256 : (256 : Nat) ^ 8 = 2 ^ 64 := by norm_num
      omega
    have hhatu : timestampToU64 head_realtime = head_realtime.toNat := by
      unfold timestampToU64
      rw [if_neg (by omega)]
    have hhrbound : head_realtime.toNat < 256 ^ 8 := by
      have h256 : (256 : Nat) ^ 8 = 2 ^ 64 := by norm_num
      have hj : jiffMaxMicros = 253402300799999999 := rfl
      omega
    have hhru256 : timestampToU64 head_realtime < 256 ^ 8 := by
      rw [hhatu]; exact hhrbound
    obtain ⟨hEat, hEdash, hEdot, hEslash⟩ := not_mem_hexEncode 16 machine_id hmid256
    obtain ⟨hFat, hFdash, hFdot, hFslash⟩ := not_mem_hexEncode 16 file_seqnum hfs256
    obtain ⟨hSat, hSdash, hSdot, hSslash⟩ := not_mem_hexEncode 8 head_seqnum hhs256
    obtain ⟨hRat, hRdash, hRdot, hRslash⟩ :=
      not_mem_hexEncode 8 (timestampToU64 head_realtime) hhru256
    have hfname_slash : '/' ∉ scope.data ++ '@' ::
        (hexEncode 16 file_seqnum ++ '-' :: (hexEncode 8 head_seqnum ++ '-' ::
          (hexEncode 8 (timestampToU64 head_realtime) ++
            ['.', 'j', 'o', 'u', 'r', 'n', 'a', 'l']))) :=
      notMemAppend hslash (notMemCons (by decide) (notMemAppend hFslash
        (notMemCons (by decide) (notMemAppend hSslash (notMemCons (by decide)
          (notMemAppend hRslash (by decide)))))))
    have hlenE : (hexEncode 16 machine_id).length = 32 := hexEncode_length 16 machine_id
    have hk1 : keepComponent (hexEncode 16 machine_id) = true :=
      keepComponent_true _ (by intro h; rw [h] at hlenE; simp at hlenE)
        (by intro h; rw [h] at hlenE; simp at hlenE)
    have hk2 : keepComponent (scope.data ++ '@' ::
        (hexEncode 16 file_seqnum ++ '-' :: (hexEncode 8 head_seqnum ++ '-' ::
          (hexEncode 8 (timestampToU64 head_realtime) ++
            ['.', 'j', 'o', 'u', 'r', 'n', 'a', 'l'])))) = true := by
      apply keepComponent_true
      · intro h
        have := congrArg List.length h
        simp [hexEncode_length] at this
      · intro h
        have := congrArg List.length h
        simp [hexEncode_length] at this
    show parse_filename (hexEncode 16 machine_id ++ '/' :: (scope.data ++ '@' ::
      (hexEncode 16 file_seqnum ++ '-' :: (hexEncode 8 head_seqnum ++ '-' ::
        (hexEncode 8 (timestampToU64 head_realtime) ++
          ['.', 'j', 'o', 'u', 'r', 'n', 'a', 'l']))))) = _
    unfold parse_filename
    rw [splitPath_append _ _ hEslash, splitPath_no_slash _ hfname_slash]
    rw [show List.filter keepComponent [hexEncode 16 machine_id, scope.data ++ '@' ::
        (hexEncode 16 file_seqnum ++ '-' :: (hexEncode 8 head_seqnum ++ '-' ::
          (hexEncode 8 (timestampToU64 head_realtime) ++
            ['.', 'j', 'o', 'u', 'r', 'n', 'a', 'l'])))] =
        [hexEncode 16 machine_id, scope.data ++ '@' ::
        (hexEncode 16 file_seqnum ++ '-' :: (hexEncode 8 head_seqnum ++ '-' ::
          (hexEncode 8 (timestampToU64 head_realtime) ++
            ['.', 'j', 'o', 'u', 'r', 'n', 'a', 'l'])))] from by
      simp [List.filter, hk1, hk2]]
    rw [show ([hexEncode 16 machine_id, scope.data ++ '@' ::
        (hexEncode 16 file_seqnum ++ '-' :: (hexEncode 8 head_seqnum ++ '-' ::
          (hexEncode 8 (timestampToU64 head_realtime) ++
            ['.', 'j', 'o', 'u', 'r', 'n', 'a', 'l'])))]).reverse =
        [scope.data ++ '@' ::
        (hexEncode 16 file_seqnum ++ '-' :: (hexEncode 8 head_seqnum ++ '-' ::
          (hexEncode 8 (timestampToU64 head_realtime) ++
            ['.', 'j', 'o', 'u', 'r', 'n', 'a', 'l']))),
          hexEncode 16 machine_id] from rfl]
    dsimp only
    rw [hexDecode_hexEncode 16 machine_id hmid256]
    dsimp only
    rw [if_pos (natToBEBytes_length 16 machine_id)]
    rw [splitOnceList_append '@' scope.data _ hat]
    dsimp only
    unfold parseArchivedRest
    rw [splitOnceList_append '-' _ _ hFdash]
    dsimp only
    rw [splitOnceList_append '-' _ _ hSdash]
    dsimp only
    rw [splitOnceList_append '.' _ ['j', 'o', 'u', 'r', 'n', 'a', 'l'] hRdot]
    dsimp only
    rw [hexDecode_hexEncode 16 file_seqnum hfs256, hexDecode_hexEncode 8 head_seqnum hhs256,
      hexDecode_hexEncode 8 (timestampToU64 head_realtime) hhru256]
    dsimp only
    rw [if_pos ⟨natToBEBytes_length 16 file_seqnum, natToBEBytes_length 8 head_seqnum,
      natToBEBytes_length 8 (timestampToU64 head_realtime)⟩]
    rw [bytesBEToNat_natToBEBytes 16 machine_id hmid256,
      bytesBEToNat_natToBEBytes 16 file_seqnum hfs256,
      bytesBEToNat_natToBEBytes 8 head_seqnum hhs256,
      bytesBEToNat_natToBEBytes 8 (timestampToU64 head_realtime) hhru256]
    rw [if_neg (by omega), if_neg (by omega)]
    rw [if_pos ?_]
    · rw [stringMk_data]
      rw [hhatu, Int.toNat_of_nonneg hhr0]
    · constructor
      · rw [hhatu]
        have hj : jiffMaxMicros = 253402300799999999 := rfl
        have h263 : (2 : Nat) ^ 63 = 9223372036854775808 := by norm_num
        omega
      · rw [hhatu, Int.toNat_of_nonneg hhr0]
        exact hhrM

/-- C4 witness: a concrete valid archived name round-trips. -/
theorem filename_roundtrip_witness :
    parse_filename (make_filename (.archived 1 "system" 2 3 100)) =
      some (.archived 1 "system" 2 3 100) :=
  filename_roundtrip (.archived 1 "system" 2 3 100)
    (by refine ⟨by norm_num, by decide, by decide, by norm_num, by norm_num, by norm_num,
      by norm_num, by norm_num, by decide⟩)

end JournaldFormat
